import Mathlib

/-!
Verification of the content-to-output rendering pipeline of makesite.py
(a static-site generator).

The Python source is shallowly embedded: pure string manipulation is
translated to Lean functions on `String` / `List Char`; the external
capabilities (Jinja template rendering, commonmark conversion,
BeautifulSoup element lookup, date formatting via strptime/strftime and
the filesystem) are passed in as explicit function parameters, exactly
at the call sites where the Python code invokes them.  Python code that
can raise is embedded with `Option` / `Except` results.

Conventions used throughout:
- Python strings are Lean `String`s; slicing, `find`, `strip`, `split`
  and `endswith` are re-implemented below on `List Char` with Python's
  semantics (the regular expression's `\d` is modelled as an ASCII
  digit).
- Python dicts of template parameters are association lists
  (`PMap`); `pyGet` looks a key up, `pySet` destructively sets a key and
  `pyUpdate` is `dict.update` (later entries shadow earlier ones).
- `sorted(items, key=..., reverse=True)` is a stable sort by the key,
  descending; it is modelled with `List.insertionSort` (stable) over the
  code-point lexicographic order `pyStrLe`, which is Python's string
  comparison.
-/

deriving instance DecidableEq for Except

namespace Makesite

/-- Whitespace characters recognised by Python's str.split() and
str.strip() (ASCII range). -/
def isPyWs (c : Char) : Bool :=
  c = ' ' || c = '\t' || c = '\n' || c = '\r' || c = '\x0b' || c = '\x0c'

/-- Helper for `pyWords`: accumulate the current word (reversed) while
scanning the character list. -/
def wordsAux : List Char → List Char → List String
  | acc, [] => if acc.isEmpty then [] else [String.mk acc.reverse]
  | acc, c :: cs =>
    if isPyWs c then
      if acc.isEmpty then wordsAux [] cs
      else String.mk acc.reverse :: wordsAux [] cs
    else wordsAux (c :: acc) cs

/-- Python text.split(): split on runs of whitespace, discarding empty
pieces. -/
def pyWords (text : String) : List String := wordsAux [] text.toList

/-- Python text.strip(): remove leading and trailing whitespace. -/
def pyStrip (s : String) : String :=
  String.mk (((s.toList.dropWhile isPyWs).reverse.dropWhile isPyWs).reverse)

/-- Source truncate(text, words=25): return ' '.join(text.split()[:words]). -/
def truncate (text : String) (words : Nat := 25) : String :=
  String.intercalate " " ((pyWords text).take words)

/-- Whether the second list starts with the first. -/
def startsWithChars : List Char → List Char → Bool
  | [], _ => true
  | _ :: _, [] => false
  | p :: ps, c :: cs => p = c && startsWithChars ps cs

/-- Whether the second list ends with the first. -/
def endsWithChars (suffix text : List Char) : Bool :=
  startsWithChars suffix.reverse text.reverse

/-- Index of the first occurrence of the pattern (first argument) in the
text (second argument), if any. -/
def findSub (pat : List Char) : List Char → Option Nat
  | [] => if pat.isEmpty then some 0 else none
  | c :: cs =>
    if startsWithChars pat (c :: cs) then some 0
    else (findSub pat cs).map (fun n => n + 1)

/-- Python text.find(pat): first index of pat in text, or -1 if absent. -/
def pyFindInt (text pat : String) : Int :=
  match findSub pat.toList text.toList with
  | some n => (n : Int)
  | none => -1

/-- The default front-matter boundary marker of
separate_content_and_variables. -/
def defaultBoundary : String := "\x7b# /variables #\x7d"

/-- Source separate_content_and_variables(text, boundary): find the
boundary; if its position is greater than zero return the stripped
prefix and the stripped remainder after the boundary, otherwise return
an empty variables part and the whole text. -/
def separate_content_and_variables (text : String)
    (boundary : String := defaultBoundary) : String × String :=
  let pos : Int := pyFindInt text boundary
  if pos > 0 then
    (pyStrip (String.mk (text.toList.take pos.toNat)),
     pyStrip (String.mk (text.toList.drop (pos.toNat + boundary.toList.length))))
  else ("", text)

/-- Python os.path.basename: the part of the path after the last slash. -/
def basenameChars (l : List Char) : List Char :=
  (l.reverse.takeWhile (fun c => c ≠ '/')).reverse

/-- Source: os.path.basename(filename).split('.')[0], the basename
segment strictly before the first dot. -/
def dateSlugOf (filename : String) : List Char :=
  (basenameChars filename.toList).takeWhile (fun c => c ≠ '.')

/-- ASCII decimal digit test, modelling the regular expression class \d. -/
def isAsciiDigit (c : Char) : Bool := '0' ≤ c && c ≤ '9'

/-- Whether the list starts with a date token: four digits, dash, two
digits, dash, two digits, then a dash followed by at least one more
character.  This is the condition under which the anchored pattern
(?:(dddd-dd-dd)-)?(.+) captures a date in group 1. -/
def hasDateToken (l : List Char) : Bool :=
  match l with
  | a :: b :: c :: d :: '-' :: e :: f :: '-' :: g :: h :: '-' :: rest =>
    !rest.isEmpty && [a, b, c, d, e, f, g, h].all isAsciiDigit
  | _ => false

/-- Result of re.search of the anchored pattern
(?:(dddd-dd-dd)-)?(.+) on the date_slug string: none when there is no
match at all (empty input, since (.+) needs one character), otherwise
the optional date group and the slug group.  The greedy optional date
group participates exactly when `hasDateToken` holds; on a trailing-dash
string such as dddd-dd-dd- the engine backtracks and the whole string
becomes the slug. -/
def reDateSlug (l : List Char) : Option (Option String × String) :=
  if l.isEmpty then none
  else if hasDateToken l then
    some (some (String.mk (l.take 10)), String.mk (l.drop 11))
  else some (none, String.mk l)

/-- The markdown extensions tested by filename.endswith in read_content. -/
def markdownExts : List String := [".md", ".mkd", ".mkdn", ".mdown", ".markdown"]

/-- Python filename.endswith(('.md', '.mkd', '.mkdn', '.mdown', '.markdown')). -/
def isMarkdownFile (filename : String) : Bool :=
  markdownExts.any (fun e => endsWithChars e.toList filename.toList)

/-- The fixed markdown header include directive from read_content. -/
def mdHeader : String := "\x7b% include \x27md_header.html\x27 %\x7d"

/-- The fixed markdown footer include directive from read_content. -/
def mdFooter : String := "\x7b% include \x27md_footer.html\x27 %\x7d"

/-- A content record: the dictionary built by read_content, with the
dest_path key that make_pages attaches later represented as an option. -/
structure ContentRecord where
  date : String
  date_ymd : String
  date_rfc_2822 : String
  slug : String
  content : String
  dest_path : Option String
deriving DecidableEq

/-- Source read_content(filename): derive date and slug from the
filename, convert markdown files (front-matter split, commonmark
conversion, header/footer wrapping), optionally run the additional
parser, and return the record.  The external capabilities are explicit:
`fmt` is format_date with the configured format, `fmtRfc` is format_date
with the RFC-2822 override, `md` is commonmark.commonmark, `addParser`
is the optional add_parser.parse hook, and `text` is the file's content
(fread).  The result is none when the regular expression does not match
(the subsequent group access raises in Python). -/
def read_content (fmt fmtRfc md : String → String)
    (addParser : Option (String → String → String))
    (filename text : String) : Option ContentRecord :=
  match reDateSlug (dateSlugOf filename) with
  | none => none
  | some (dateTok, slug) =>
    let dymd := dateTok.getD "1970-01-01"
    let text1 :=
      if isMarkdownFile filename then
        let vc := separate_content_and_variables text defaultBoundary
        vc.1 ++ mdHeader ++ md vc.2 ++ mdFooter
      else text
    let text2 :=
      match addParser with
      | some p => p text1 filename
      | none => text1
    some { date := fmt dymd, date_ymd := dymd, date_rfc_2822 := fmtRfc dymd,
           slug := slug, content := text2, dest_path := none }

/-- Lexicographic order on character lists by code point: Python's
string comparison. -/
def charListLe : List Char → List Char → Bool
  | [], _ => true
  | _ :: _, [] => false
  | a :: as, b :: bs => if a = b then charListLe as bs else decide (a < b)

/-- Python string comparison a <= b (code-point lexicographic). -/
def pyStrLe (a b : String) : Bool := charListLe a.toList b.toList

/-- The descending-by-date_ymd relation used by
sorted(items, key=lambda x: x['date_ymd'], reverse=True). -/
def dateGe (a b : ContentRecord) : Prop := pyStrLe b.date_ymd a.date_ymd = true

instance : DecidableRel dateGe :=
  fun a b => inferInstanceAs (Decidable (pyStrLe b.date_ymd a.date_ymd = true))

/-- A Python dict of template parameters, as an association list whose
first matching entry wins. -/
abbrev PMap := List (String × String)

/-- Dict lookup: the first (most recently set) binding of the key. -/
def pyGet (m : PMap) (k : String) : Option String :=
  match m with
  | [] => none
  | (k2, v) :: rest => if k2 = k then some v else pyGet rest k

/-- Dict assignment m[k] = v. -/
def pySet (m : PMap) (k v : String) : PMap := (k, v) :: m

/-- Python dict.update / dict(m, **adds): set every binding of adds, in
order, so later entries of adds shadow earlier ones and all of them
shadow m. -/
def pyUpdate (m : PMap) (adds : PMap) : PMap :=
  adds.foldl (fun acc kv => pySet acc kv.1 kv.2) m

/-- The five keys of the dictionary returned by read_content, in
construction order. -/
def ctxFields (c : ContentRecord) : PMap :=
  [("date", c.date), ("date_ymd", c.date_ymd), ("date_rfc_2822", c.date_rfc_2822),
   ("slug", c.slug), ("content", c.content)]

/-- The keys of a post record seen by dict(params, **post) in make_list:
the read_content keys plus dest_path once make_pages attached it. -/
def postFields (c : ContentRecord) : PMap :=
  ctxFields c ++ (match c.dest_path with
    | some d => [("dest_path", d)]
    | none => [])

/-- Loop body of make_pages, one source file per step.  Mirrors the
Python loop exactly: read_content, params.update(context) on the same
params dict carried across iterations, render the destination path and
the content against the updated dict, attach dest_path to the context,
accumulate the context and the file write.  The input list stands for
glob.glob(src) together with fread of each path; `render` is the Jinja
render(html, **params) capability.  Returns none when read_content
fails.  In addition to the Python observables (final params state,
accumulated items, file writes) it returns the params dict passed to the
renders of each iteration, newest step last, so that theorems can speak
about what each render saw. -/
def makePagesLoop (fmt fmtRfc md : String → String)
    (addParser : Option (String → String → String))
    (render : String → PMap → String) (dst : String) :
    PMap → List (String × String) →
      Option (PMap × List ContentRecord × List (String × String) × List PMap)
  | params, [] => some (params, [], [], [])
  | params, (src_path, text) :: rest =>
    match read_content fmt fmtRfc md addParser src_path text with
    | none => none
    | some context0 =>
      let params2 := pyUpdate params (ctxFields context0)
      let dst_path := render dst params2
      let output := render context0.content params2
      let context := { context0 with dest_path := some dst_path }
      match makePagesLoop fmt fmtRfc md addParser render dst params2 rest with
      | none => none
      | some (pf, items, writes, seen) =>
        some (pf, context :: items, (dst_path, output) :: writes, params2 :: seen)

/-- Source make_pages(src, dst, layout, **params): run the loop over the
globbed source files and return the accumulated items sorted by
date_ymd descending (stable, as Python's sorted).  The layout argument
is unused by the source exactly as here. -/
def make_pages (fmt fmtRfc md : String → String)
    (addParser : Option (String → String → String))
    (render : String → PMap → String) (_layout : Option String)
    (srcFiles : List (String × String)) (dst : String) (params : PMap) :
    Option (List ContentRecord) :=
  match makePagesLoop fmt fmtRfc md addParser render dst params srcFiles with
  | none => none
  | some r => some (List.insertionSort dateGe r.2.1)

/-- The message of the AttributeError Python raises when soup.find
returns None and .text is accessed. -/
def attributeErrorMsg : String :=
  "AttributeError: NoneType object has no attribute text"

/-- Source get_title_and_summary(path): read the rendered output file,
parse it, and return the text of the element with id title and the
truncated text of the element with id post.  The filesystem (`fs`, for
fread) and the BeautifulSoup lookup (`findId`, taking the document text
and an id to the element's text when present) are explicit capabilities.
When either element is absent Python raises an AttributeError. -/
def get_title_and_summary (fs : String → String)
    (findId : String → String → Option String) (path : String) :
    Except String (String × String) :=
  let soup := fs path
  match findId soup "title", findId soup "post" with
  | some t, some b => .ok (t, truncate b 25)
  | _, _ => .error attributeErrorMsg

/-- The message of the KeyError Python raises when a post record has no
dest_path key. -/
def keyErrorMsg : String := "KeyError: dest_path"

/-- Body of one make_list iteration for a single post: item_params =
dict(params, **post) (a fresh copy built from the base params), lookup
of item_params['dest_path'] (a KeyError when absent), title and summary
extraction from the record's rendered output file, and the render of the
per-item layout against the extended copy. -/
def listItemFragment (render : String → PMap → String) (fs : String → String)
    (findId : String → String → Option String) (item_layout : String)
    (params : PMap) (post : ContentRecord) : Except String String :=
  let item_params := pyUpdate params (postFields post)
  match pyGet item_params "dest_path" with
  | none => .error keyErrorMsg
  | some dp =>
    match get_title_and_summary fs findId dp with
    | .error e => .error e
    | .ok ts =>
      let item_params2 := pySet (pySet item_params "title" ts.1) "summary" ts.2
      .ok (render item_layout item_params2)

/-- Loop of make_list with the enumerate counter k: render each item
fragment (listItemFragment), propagating its exceptions, and break once
k + 1 >= limit — the bound is checked only after the item was rendered
and appended, exactly as in the source. -/
def makeListLoop (render : String → PMap → String) (fs : String → String)
    (findId : String → String → Option String) (item_layout : String)
    (limit : Option Nat) (params : PMap) :
    Nat → List ContentRecord → Except String (List String)
  | _, [] => .ok []
  | k, post :: rest =>
    match listItemFragment render fs findId item_layout params post with
    | .error e => .error e
    | .ok item =>
      match limit with
      | some l =>
        if k + 1 ≥ l then .ok [item]
        else (makeListLoop render fs findId item_layout limit params (k + 1) rest).map
          (fun items => item :: items)
      | none =>
        (makeListLoop render fs findId item_layout limit params (k + 1) rest).map
          (fun items => item :: items)

/-- Source make_list(posts, dst, list_layout, item_layout, limit,
**params): render the item fragments, join them into the content key,
and render the destination path and the list wrapper.  Returns the
destination path, the output text written there, and the list of
rendered item fragments (the last is instrumentation: Python holds it in
the local items variable). -/
def make_list (render : String → PMap → String) (fs : String → String)
    (findId : String → String → Option String)
    (posts : List ContentRecord) (dst list_layout item_layout : String)
    (limit : Option Nat) (params : PMap) :
    Except String (String × String × List String) :=
  match makeListLoop render fs findId item_layout limit params 0 posts with
  | .error e => .error e
  | .ok items =>
    let params2 := pySet params "content" (String.join items)
    .ok (render dst params2, render list_layout params2, items)

/-- Sequence a fallible function over a list, stopping at the first
error. -/
def exceptTraverse (f : α → Except ε β) : List α → Except ε (List β)
  | [] => .ok []
  | a :: as =>
    match f a with
    | .error e => .error e
    | .ok b => (exceptTraverse f as).map (fun bs => b :: bs)

/-- Number of posts the make_list loop actually processes: all of them
when there is no limit; with limit l, it stops after l items, except
that l = 0 still yields one item because the bound is only checked after
the first item was rendered and appended. -/
def listLimitCount (limit : Option Nat) (n : Nat) : Nat :=
  match limit with
  | none => n
  | some l => min (max l 1) n

/-- Number of posts the make_list loop processes when started at
enumerate counter k with n posts remaining: all of them without a limit;
with limit l it stops once the counter reaches l, except that the check
happens only after an item was rendered and appended, so at least one
post is always consumed. -/
def listTakeCount (limit : Option Nat) (k n : Nat) : Nat :=
  match limit with
  | none => n
  | some l => min (max (l - k) 1) n

/-- The identity string function, standing in for trivial external
capabilities in concrete evaluations. -/
def idf : String → String := fun s => s

/-- A sample markdown converter for concrete evaluations. -/
def mdConv : String → String := fun s => "<p>" ++ s ++ "</p>"

/-- A renderer that returns the template unchanged, for concrete
evaluations. -/
def trivRender : String → PMap → String := fun t _ => t

/-- A concrete content record (as make_pages would produce it) for
concrete evaluations. -/
def samplePost (d s : String) : ContentRecord :=
  { date := d, date_ymd := d, date_rfc_2822 := d, slug := s, content := "c",
    dest_path := some ("out/" ++ s ++ "/index.html") }

/-- A thirty-word body text with irregular whitespace (a double space
and a newline), for concrete evaluations of the summary truncation. -/
def sampleBody : String :=
  "wd01 wd02  wd03 wd04 wd05 wd06 wd07 wd08 wd09 wd10\nwd11 wd12 wd13 wd14 wd15 wd16 wd17 wd18 wd19 wd20 wd21 wd22 wd23 wd24 wd25 wd26 wd27 wd28 wd29 wd30"

/-- A concrete BeautifulSoup lookup: every document has a title element
and a thirty-word post body. -/
def sampleFindId : String → String → Option String :=
  fun _ i => if i = "title" then some "My Title" else some sampleBody

/-- The record read_content produces for the markdown file
2020-01-01-a.md with front-matter text v and body hi, under the
identity formatters and the sample converter. -/
def mdSampleRecord : ContentRecord :=
  { date := "2020-01-01", date_ymd := "2020-01-01", date_rfc_2822 := "2020-01-01",
    slug := "a", content := "v" ++ mdHeader ++ mdConv "hi" ++ mdFooter,
    dest_path := none }

/-- The record read_content produces for the HTML file 2020-01-01-a.html
with raw text, under the identity formatters. -/
def htmlSampleRecord : ContentRecord :=
  { date := "2020-01-01", date_ymd := "2020-01-01", date_rfc_2822 := "2020-01-01",
    slug := "a", content := "<b>raw</b>", dest_path := none }

/-- First record of the two-file make_pages run used in concrete
parameter-threading evaluations. -/
def threadItemA : ContentRecord :=
  { date := "2020-01-01", date_ymd := "2020-01-01", date_rfc_2822 := "2020-01-01",
    slug := "a", content := "x", dest_path := some "out" }

/-- Second record of the two-file make_pages run used in concrete
parameter-threading evaluations. -/
def threadItemB : ContentRecord :=
  { date := "2021-06-15", date_ymd := "2021-06-15", date_rfc_2822 := "2021-06-15",
    slug := "b", content := "y", dest_path := some "out" }

/-- The params dict passed to the renders of the first iteration of that
run: the base dict destructively extended with the first record. -/
def threadSeenA : PMap :=
  [("content", "x"), ("slug", "a"), ("date_rfc_2822", "2020-01-01"),
   ("date_ymd", "2020-01-01"), ("date", "2020-01-01"), ("k0", "v0")]

/-- The params dict passed to the renders of the second iteration: the
second record's entries pushed onto the already-extended dict of the
first iteration (the first item's entries remain, shadowed). -/
def threadSeenB : PMap :=
  [("content", "y"), ("slug", "b"), ("date_rfc_2822", "2021-06-15"),
   ("date_ymd", "2021-06-15"), ("date", "2021-06-15")] ++ threadSeenA

/-! Helper lemmas about the embedded primitives. -/

theorem toList_append (s t : String) : (s ++ t).toList = s.toList ++ t.toList :=
  String.data_append s t

theorem toList_eq_nil_iff (s : String) : s.toList = [] ↔ s = "" := by
  constructor
  · intro h
    cases s with
    | mk d =>
      simp [String.toList] at h
      simp [h]
  · intro h
    subst h
    rfl

theorem startsWithChars_self_append (p r : List Char) :
    startsWithChars p (p ++ r) = true := by
  induction p with
  | nil => rfl
  | cons c cs ih =>
    rw [List.cons_append]
    show (decide (c = c) && startsWithChars cs (cs ++ r)) = true
    simp [ih]

theorem findSub_self_append (p r : List Char) : findSub p (p ++ r) = some 0 := by
  cases p with
  | nil =>
    cases r with
    | nil => rfl
    | cons c cs => simp [findSub, startsWithChars]
  | cons c cs =>
    have h := startsWithChars_self_append (c :: cs) r
    rw [List.cons_append] at h
    simp [findSub, h]

theorem basenameChars_of_no_slash (l : List Char) (h : ∀ c ∈ l, c ≠ '/') :
    basenameChars l = l := by
  unfold basenameChars
  have h2 : l.reverse.takeWhile (fun c => c ≠ '/') = l.reverse := by
    rw [List.takeWhile_eq_self_iff]
    intro c hc
    simp [h c (List.mem_reverse.mp hc)]
  rw [h2, List.reverse_reverse]

theorem takeWhile_append_stop (xs ys : List Char) (h : ∀ c ∈ xs, c ≠ '.') :
    (xs ++ '.' :: ys).takeWhile (fun c => c ≠ '.') = xs := by
  induction xs with
  | nil => rw [List.nil_append, List.takeWhile_cons_of_neg (by simp)]
  | cons c cs ih =>
    have hc : c ≠ '.' := h c (List.mem_cons_self c cs)
    rw [List.cons_append, List.takeWhile_cons_of_pos (by simp [hc]),
      ih (fun x hx => h x (List.mem_cons_of_mem c hx))]

theorem dateSlugOf_concat (stem ext : String)
    (hs : ∀ c ∈ stem.toList, c ≠ '.' ∧ c ≠ '/')
    (he : ∀ c ∈ ext.toList, c ≠ '/') :
    dateSlugOf (stem ++ "." ++ ext) = stem.toList := by
  unfold dateSlugOf
  have h1 : (stem ++ "." ++ ext).toList = stem.toList ++ '.' :: ext.toList := by
    rw [toList_append, toList_append, List.append_assoc]
    rfl
  rw [h1]
  have h2 : ∀ c ∈ stem.toList ++ '.' :: ext.toList, c ≠ '/' := by
    intro c hc
    rcases List.mem_append.mp hc with h | h
    · exact (hs c h).2
    · rcases List.mem_cons.mp h with h | h
      · subst h; decide
      · exact he c h
  rw [basenameChars_of_no_slash _ h2]
  exact takeWhile_append_stop _ _ (fun c hc => (hs c hc).1)

theorem reDateSlug_dated (a b c d e f g h : Char) (sl : List Char)
    (hd : [a, b, c, d, e, f, g, h].all isAsciiDigit = true) (hne : sl ≠ []) :
    reDateSlug (a :: b :: c :: d :: '-' :: e :: f :: '-' :: g :: h :: '-' :: sl) =
      some (some (String.mk [a, b, c, d, '-', e, f, '-', g, h]), String.mk sl) := by
  have h1 : hasDateToken (a :: b :: c :: d :: '-' :: e :: f :: '-' :: g :: h :: '-' :: sl)
      = true := by
    unfold hasDateToken
    simp [List.isEmpty_eq_false.mpr hne, hd]
  unfold reDateSlug
  rw [h1]
  simp only [List.isEmpty, if_true, if_false]
  rfl

theorem isAsciiDigit_ne (c : Char) (h : isAsciiDigit c = true) : c ≠ '.' ∧ c ≠ '/' := by
  unfold isAsciiDigit at h
  constructor
  · intro he
    subst he
    exact absurd h (by decide)
  · intro he
    subst he
    exact absurd h (by decide)

theorem read_content_eq (fmt fmtRfc md : String → String)
    (ap : Option (String → String → String)) (fn text : String)
    (dtok : Option String) (sl : String)
    (h : reDateSlug (dateSlugOf fn) = some (dtok, sl)) :
    read_content fmt fmtRfc md ap fn text = some
      { date := fmt (dtok.getD "1970-01-01"),
        date_ymd := dtok.getD "1970-01-01",
        date_rfc_2822 := fmtRfc (dtok.getD "1970-01-01"),
        slug := sl,
        content :=
          (match ap with
          | some p => p (if isMarkdownFile fn then
              (separate_content_and_variables text defaultBoundary).1 ++ mdHeader ++
                md (separate_content_and_variables text defaultBoundary).2 ++ mdFooter
            else text) fn
          | none => (if isMarkdownFile fn then
              (separate_content_and_variables text defaultBoundary).1 ++ mdHeader ++
                md (separate_content_and_variables text defaultBoundary).2 ++ mdFooter
            else text)),
        dest_path := none } := by
  unfold read_content
  rw [h]

theorem charListLe_total : ∀ x y : List Char, charListLe x y = true ∨ charListLe y x = true
  | [], _ => Or.inl rfl
  | _ :: _, [] => Or.inr rfl
  | a :: as, b :: bs => by
    by_cases hab : a = b
    · subst hab
      rcases charListLe_total as bs with h | h
      · left
        simp [charListLe, h]
      · right
        simp [charListLe, h]
    · rcases lt_trichotomy a b with h | h | h
      · left
        simp [charListLe, hab, h]
      · exact absurd h hab
      · right
        have hba : ¬ b = a := fun e => hab e.symm
        simp [charListLe, hba, h]

theorem charListLe_trans : ∀ x y z : List Char,
    charListLe x y = true → charListLe y z = true → charListLe x z = true
  | [], _, _, _, _ => rfl
  | _ :: _, [], _, h1, _ => by simp [charListLe] at h1
  | _ :: _, _ :: _, [], _, h2 => by simp [charListLe] at h2
  | a :: as, b :: bs, c :: cs, h1, h2 => by
    by_cases hab : a = b <;> by_cases hbc : b = c
    · subst hab
      subst hbc
      simp only [charListLe, if_pos rfl] at h1 h2 ⊢
      exact charListLe_trans as bs cs h1 h2
    · subst hab
      simp only [charListLe, if_pos rfl, if_neg hbc] at h2
      simp only [charListLe, if_neg hbc]
      exact h2
    · subst hbc
      simp only [charListLe, if_neg hab] at h1
      simp only [charListLe, if_neg hab]
      exact h1
    · simp only [charListLe, if_neg hab] at h1
      simp only [charListLe, if_neg hbc] at h2
      have hac : a < c := lt_trans (of_decide_eq_true h1) (of_decide_eq_true h2)
      have hne : ¬ a = c := ne_of_lt hac
      simp only [charListLe, if_neg hne]
      exact decide_eq_true hac

instance : IsTotal ContentRecord dateGe :=
  ⟨fun a b => charListLe_total b.date_ymd.toList a.date_ymd.toList⟩

instance : IsTrans ContentRecord dateGe :=
  ⟨fun _ b _ h1 h2 => charListLe_trans _ b.date_ymd.toList _ h2 h1⟩

theorem pyGet_pyUpdate (adds : PMap) : ∀ (m : PMap) (k : String),
    pyGet (pyUpdate m adds) k =
      match pyGet (pyUpdate [] adds) k with
      | some v => some v
      | none => pyGet m k := by
  induction adds with
  | nil =>
    intro m k
    rfl
  | cons kv rest ih =>
    intro m k
    show pyGet (pyUpdate (pySet m kv.1 kv.2) rest) k =
      match pyGet (pyUpdate (pySet [] kv.1 kv.2) rest) k with
      | some v => some v
      | none => pyGet m k
    rw [ih (pySet m kv.1 kv.2), ih (pySet [] kv.1 kv.2)]
    cases hv : pyGet (pyUpdate [] rest) k with
    | some v => rfl
    | none =>
      by_cases hk : kv.1 = k
      · simp [pyGet, pySet, hk]
      · simp [pyGet, pySet, hk]

theorem pyGet_ctx_none_iff (c : ContentRecord) (k : String) :
    pyGet (pyUpdate [] (ctxFields c)) k = none ↔
      (k ≠ "date" ∧ k ≠ "date_ymd" ∧ k ≠ "date_rfc_2822" ∧ k ≠ "slug" ∧ k ≠ "content") := by
  show pyGet [("content", c.content), ("slug", c.slug), ("date_rfc_2822", c.date_rfc_2822),
      ("date_ymd", c.date_ymd), ("date", c.date)] k = none ↔ _
  constructor
  · intro h
    refine ⟨?_, ?_, ?_, ?_, ?_⟩ <;> intro he <;> subst he <;> simp [pyGet] at h
  · rintro ⟨h1, h2, h3, h4, h5⟩
    simp [pyGet, Ne.symm h1, Ne.symm h2, Ne.symm h3, Ne.symm h4, Ne.symm h5]

theorem ctxFields_dest_path (c : ContentRecord) (d : Option String) :
    ctxFields { c with dest_path := d } = ctxFields c := rfl

theorem pyGet_pyUpdate_ctxFields (p : PMap) (c0 c : ContentRecord) (k : String) :
    pyGet (pyUpdate (pyUpdate p (ctxFields c0)) (ctxFields c)) k =
      pyGet (pyUpdate p (ctxFields c)) k := by
  rw [pyGet_pyUpdate (ctxFields c) (pyUpdate p (ctxFields c0)), pyGet_pyUpdate (ctxFields c) p]
  cases hv : pyGet (pyUpdate [] (ctxFields c)) k with
  | some v => rfl
  | none =>
    rw [pyGet_pyUpdate (ctxFields c0) p]
    have h0 : pyGet (pyUpdate [] (ctxFields c0)) k = none :=
      (pyGet_ctx_none_iff c0 k).mpr ((pyGet_ctx_none_iff c k).mp hv)
    rw [h0]

theorem exceptTraverse_ok_length (f : α → Except ε β) :
    ∀ (xs : List α) (ys : List β), exceptTraverse f xs = .ok ys → ys.length = xs.length := by
  intro xs
  induction xs with
  | nil =>
    intro ys h
    injection h with h
    subst h
    rfl
  | cons a as ih =>
    intro ys h
    unfold exceptTraverse at h
    cases hf : f a with
    | error e => rw [hf] at h; exact absurd h (by simp)
    | ok b =>
      rw [hf] at h
      cases ht : exceptTraverse f as with
      | error e => rw [ht] at h; exact absurd h (by simp [Except.map])
      | ok bs =>
        rw [ht] at h
        simp [Except.map] at h
        subst h
        simp [ih bs ht]

theorem makeListLoop_eq_traverse (render : String → PMap → String) (fs : String → String)
    (findId : String → String → Option String) (il : String) (limit : Option Nat)
    (params : PMap) :
    ∀ (posts : List ContentRecord) (k : Nat),
      makeListLoop render fs findId il limit params k posts =
        exceptTraverse (listItemFragment render fs findId il params)
          (posts.take (listTakeCount limit k posts.length)) := by
  intro posts
  induction posts with
  | nil =>
    intro k
    rw [List.take_nil]
    cases limit <;> rfl
  | cons post rest ih =>
    intro k
    have hpos : ∃ c, listTakeCount limit k (post :: rest).length = c + 1 := by
      cases limit with
      | none => exact ⟨rest.length, rfl⟩
      | some l =>
        refine ⟨min (max (l - k) 1) (rest.length + 1) - 1, ?_⟩
        show min (max (l - k) 1) (rest.length + 1) = _
        omega
    obtain ⟨c, hc⟩ := hpos
    rw [hc, List.take_succ_cons]
    cases hf : listItemFragment render fs findId il params post with
    | error e => simp [makeListLoop, exceptTraverse, hf]
    | ok item =>
      cases limit with
      | none =>
        have hcn : c = rest.length := by
          simp only [listTakeCount, List.length_cons] at hc
          omega
        subst hcn
        simp [makeListLoop, exceptTraverse, hf, ih (k + 1), listTakeCount,
          List.take_length, Except.map]
      | some l =>
        by_cases hlim : k + 1 ≥ l
        · have hc0 : c = 0 := by
            simp only [listTakeCount, List.length_cons] at hc
            omega
          subst hc0
          simp [makeListLoop, exceptTraverse, hf, hlim, List.take_zero, Except.map]
        · have hcc : c = listTakeCount (some l) (k + 1) rest.length := by
            simp only [listTakeCount, List.length_cons] at hc ⊢
            omega
          rw [hcc]
          simp only [makeListLoop, hf, if_neg hlim]
          rw [ih (k + 1)]
          simp [exceptTraverse, hf, Except.map]

theorem makePagesLoop_seen (fmt fmtRfc md : String → String)
    (ap : Option (String → String → String)) (render : String → PMap → String)
    (dst : String) :
    ∀ (srcFiles : List (String × String)) (params pf : PMap)
      (items : List ContentRecord) (writes : List (String × String))
      (seen : List PMap),
      makePagesLoop fmt fmtRfc md ap render dst params srcFiles =
        some (pf, items, writes, seen) →
      seen.length = items.length ∧
      ∀ (k : Nat) (hk : k < seen.length) (hk2 : k < items.length) (key : String),
        pyGet (seen.get ⟨k, hk⟩) key =
          pyGet (pyUpdate params (ctxFields (items.get ⟨k, hk2⟩))) key := by
  intro srcFiles
  induction srcFiles with
  | nil =>
    intro params pf items writes seen h
    simp only [makePagesLoop, Option.some.injEq, Prod.mk.injEq] at h
    obtain ⟨h1, h2, h3, h4⟩ := h
    subst h2
    subst h4
    exact ⟨rfl, fun k hk hk2 key => absurd hk (by simp)⟩
  | cons src rest ih =>
    intro params pf items writes seen h
    obtain ⟨src_path, text⟩ := src
    cases hrc : read_content fmt fmtRfc md ap src_path text with
    | none =>
      simp only [makePagesLoop, hrc] at h
      simp at h
    | some context0 =>
      simp only [makePagesLoop, hrc] at h
      cases hrec : makePagesLoop fmt fmtRfc md ap render dst
          (pyUpdate params (ctxFields context0)) rest with
      | none => rw [hrec] at h; simp at h
      | some r =>
        obtain ⟨pf2, items2, writes2, seen2⟩ := r
        rw [hrec] at h
        simp only [Option.some.injEq, Prod.mk.injEq] at h
        obtain ⟨h1, h2, h3, h4⟩ := h
        subst h2
        subst h4
        obtain ⟨hlen, hseen⟩ :=
          ih (pyUpdate params (ctxFields context0)) pf2 items2 writes2 seen2 hrec
        constructor
        · simp [hlen]
        · intro k hk hk2 key
          cases k with
          | zero => rfl
          | succ k =>
            show pyGet (seen2.get ⟨k, _⟩) key = _
            have hk' : k < seen2.length := by
              simp at hk
              omega
            have hk2' : k < items2.length := by
              simp at hk2
              omega
            rw [hseen k hk' hk2', pyGet_pyUpdate_ctxFields]
            rfl

/-! Claim theorems. -/

/-- C1: for every filename of the form YYYY-MM-DD-slug.ext (a leading
token of four digits, dash, two digits, dash, two digits, followed by a
dash; slug nonempty, free of dots and slashes; extension free of
slashes), read_content returns date_ymd equal to that YYYY-MM-DD string
and slug equal to the remainder; for every filename slug.ext whose
leading segment carries no such date token (including malformed
date-like prefixes), date_ymd is the epoch 1970-01-01 and the whole
segment is the slug. -/
theorem c1_metadata_extraction (fmt fmtRfc md : String → String)
    (ap : Option (String → String → String)) :
    (∀ (a b c d e f g h : Char) (slug ext text : String),
      [a, b, c, d, e, f, g, h].all isAsciiDigit = true →
      slug ≠ "" →
      (∀ ch ∈ slug.toList, ch ≠ '.' ∧ ch ≠ '/') →
      (∀ ch ∈ ext.toList, ch ≠ '/') →
      (read_content fmt fmtRfc md ap
          (String.mk [a, b, c, d, '-', e, f, '-', g, h] ++ "-" ++ slug ++ "." ++ ext)
          text).map (fun r => (r.date_ymd, r.slug)) =
        some (String.mk [a, b, c, d, '-', e, f, '-', g, h], slug)) ∧
    (∀ (s ext text : String),
      s ≠ "" →
      hasDateToken s.toList = false →
      (∀ ch ∈ s.toList, ch ≠ '.' ∧ ch ≠ '/') →
      (∀ ch ∈ ext.toList, ch ≠ '/') →
      (read_content fmt fmtRfc md ap (s ++ "." ++ ext) text).map
          (fun r => (r.date_ymd, r.slug)) =
        some ("1970-01-01", s)) := by
  constructor
  · intro a b c d e f g h slug ext text hdig hne hslug hext
    have hdig2 : (isAsciiDigit a ∧ isAsciiDigit b ∧ isAsciiDigit c ∧ isAsciiDigit d ∧
        isAsciiDigit e ∧ isAsciiDigit f ∧ isAsciiDigit g ∧ isAsciiDigit h) := by
      simpa using hdig
    obtain ⟨ha, hb, hcd, hd, he2, hf2, hg, hh⟩ := hdig2
    have hstem : ∀ ch ∈ (String.mk [a, b, c, d, '-', e, f, '-', g, h] ++ "-" ++ slug).toList,
        ch ≠ '.' ∧ ch ≠ '/' := by
      intro ch hch
      rw [toList_append, toList_append] at hch
      rcases List.mem_append.mp hch with hch | hch
      · rcases List.mem_append.mp hch with hch | hch
        · have hor : ch = a ∨ ch = b ∨ ch = c ∨ ch = d ∨ ch = '-' ∨ ch = e ∨ ch = f ∨
              ch = '-' ∨ ch = g ∨ ch = h := by simpa using hch
          rcases hor with rfl | rfl | rfl | rfl | rfl | rfl | rfl | rfl | rfl | rfl
          · exact isAsciiDigit_ne _ ha
          · exact isAsciiDigit_ne _ hb
          · exact isAsciiDigit_ne _ hcd
          · exact isAsciiDigit_ne _ hd
          · exact ⟨by decide, by decide⟩
          · exact isAsciiDigit_ne _ he2
          · exact isAsciiDigit_ne _ hf2
          · exact ⟨by decide, by decide⟩
          · exact isAsciiDigit_ne _ hg
          · exact isAsciiDigit_ne _ hh
        · have hch2 : ch = '-' := by simpa using hch
          subst hch2
          exact ⟨by decide, by decide⟩
      · exact hslug ch hch
    have h1 : dateSlugOf (String.mk [a, b, c, d, '-', e, f, '-', g, h] ++ "-" ++ slug ++
        "." ++ ext) = (String.mk [a, b, c, d, '-', e, f, '-', g, h] ++ "-" ++ slug).toList :=
      dateSlugOf_concat _ ext hstem hext
    have h2 : (String.mk [a, b, c, d, '-', e, f, '-', g, h] ++ "-" ++ slug).toList =
        a :: b :: c :: d :: '-' :: e :: f :: '-' :: g :: h :: '-' :: slug.toList := by
      rw [toList_append, toList_append]
      rfl
    have h3 : reDateSlug (dateSlugOf (String.mk [a, b, c, d, '-', e, f, '-', g, h] ++
        "-" ++ slug ++ "." ++ ext)) =
        some (some (String.mk [a, b, c, d, '-', e, f, '-', g, h]), slug) := by
      rw [h1, h2, reDateSlug_dated a b c d e f g h slug.toList hdig
        (fun hl => hne ((toList_eq_nil_iff slug).mp hl))]
      rfl
    rw [read_content_eq fmt fmtRfc md ap _ text
      (some (String.mk [a, b, c, d, '-', e, f, '-', g, h])) slug h3]
    rfl
  · intro s ext text hne htok hs hext
    have h1 : dateSlugOf (s ++ "." ++ ext) = s.toList := dateSlugOf_concat s ext hs hext
    have h3 : reDateSlug (dateSlugOf (s ++ "." ++ ext)) = some (none, s) := by
      rw [h1]
      unfold reDateSlug
      rw [htok, List.isEmpty_eq_false.mpr (fun hl => hne ((toList_eq_nil_iff s).mp hl))]
      rfl
    rw [read_content_eq fmt fmtRfc md ap _ text none s h3]
    rfl

/-- C1 witness: a dated markdown filename yields its date and slug, and
a filename with a malformed (non-matching) date-like prefix falls back
to the epoch with the whole segment as slug. -/
theorem c1_metadata_extraction_witness :
    (read_content idf idf idf none "2020-01-01-hello.md" "t").map
        (fun r => (r.date_ymd, r.slug)) = some ("2020-01-01", "hello") ∧
    (read_content idf idf idf none "2020-1-1-about.html" "t").map
        (fun r => (r.date_ymd, r.slug)) = some ("1970-01-01", "2020-1-1-about") := by
  constructor
  · have h := (c1_metadata_extraction idf idf idf none).1 '2' '0' '2' '0' '0' '1' '0' '1'
      "hello" "md" "t" (by decide) (by decide) (by decide) (by decide)
    exact h
  · have h := (c1_metadata_extraction idf idf idf none).2 "2020-1-1-about" "html" "t"
      (by decide) (by decide) (by decide) (by decide)
    exact h

/-- C10: for every filename whose basename has an empty segment before
the first dot (dotfiles such as .hidden, or an empty basename), the
regular expression does not match and read_content fails rather than
returning a record. -/
theorem c10_dotfile_fails (fmt fmtRfc md : String → String)
    (ap : Option (String → String → String)) (fn text : String)
    (h : (basenameChars fn.toList).takeWhile (fun c => c ≠ '.') = []) :
    read_content fmt fmtRfc md ap fn text = none := by
  unfold read_content
  have h2 : reDateSlug (dateSlugOf fn) = none := by
    unfold dateSlugOf reDateSlug
    rw [h]
    rfl
  rw [h2]

/-- C10 witness: read_content fails on the dotfile .hidden. -/
theorem c10_dotfile_fails_witness :
    read_content idf idf idf none ".hidden" "x" = none :=
  c10_dotfile_fails idf idf idf none ".hidden" "x" (by decide)

/-- C8 counterexample: for the basename my.note.md the slug is my, not
my.note — everything from the first dot on is discarded, not only the
trailing extension. -/
theorem c8_slug_counterexample :
    (read_content idf idf idf none "my.note.md" "body").map (fun r => r.slug) =
      some "my" ∧ ("my" : String) ≠ "my.note" := by
  constructor
  · decide
  · decide

/-- C8 (amended): the slug is the basename segment strictly before the
FIRST dot, with the leading date token (when present) removed; every
later dot-separated segment is discarded, not only the trailing
extension. -/
theorem c8_slug_first_dot_segment (fmt fmtRfc md : String → String)
    (ap : Option (String → String → String)) :
    (∀ (a b c d e f g h : Char) (stem rest text : String),
      [a, b, c, d, e, f, g, h].all isAsciiDigit = true →
      stem ≠ "" →
      (∀ ch ∈ stem.toList, ch ≠ '.' ∧ ch ≠ '/') →
      (∀ ch ∈ rest.toList, ch ≠ '/') →
      (read_content fmt fmtRfc md ap
          (String.mk [a, b, c, d, '-', e, f, '-', g, h] ++ "-" ++ stem ++ "." ++ rest)
          text).map (fun r => r.slug) = some stem) ∧
    (∀ (stem rest text : String),
      stem ≠ "" →
      hasDateToken stem.toList = false →
      (∀ ch ∈ stem.toList, ch ≠ '.' ∧ ch ≠ '/') →
      (∀ ch ∈ rest.toList, ch ≠ '/') →
      (read_content fmt fmtRfc md ap (stem ++ "." ++ rest) text).map
          (fun r => r.slug) = some stem) := by
  constructor
  · intro a b c d e f g h stem rest text hdig hne hstem hrest
    have hmap := (c1_metadata_extraction fmt fmtRfc md ap).1 a b c d e f g h stem rest text
      hdig hne hstem hrest
    cases hrc : read_content fmt fmtRfc md ap
        (String.mk [a, b, c, d, '-', e, f, '-', g, h] ++ "-" ++ stem ++ "." ++ rest) text with
    | none => rw [hrc] at hmap; exact absurd hmap (by simp)
    | some r =>
      rw [hrc] at hmap
      simp only [Option.map_some', Option.some.injEq, Prod.mk.injEq] at hmap
      simp [hmap.2]
  · intro stem rest text hne htok hstem hrest
    have hmap := (c1_metadata_extraction fmt fmtRfc md ap).2 stem rest text hne htok hstem hrest
    cases hrc : read_content fmt fmtRfc md ap (stem ++ "." ++ rest) text with
    | none => rw [hrc] at hmap; exact absurd hmap (by simp)
    | some r =>
      rw [hrc] at hmap
      simp only [Option.map_some', Option.some.injEq, Prod.mk.injEq] at hmap
      simp [hmap.2]

/-- C8 witness: a dotted basename with a date prefix keeps only the
segment before the first dot as slug, and my.note.md yields my. -/
theorem c8_slug_first_dot_segment_witness :
    (read_content idf idf idf none "2020-01-01-my.note.md" "b").map (fun r => r.slug) =
      some "my" ∧
    (read_content idf idf idf none "my.note.md" "b").map (fun r => r.slug) = some "my" := by
  constructor
  · exact (c8_slug_first_dot_segment idf idf idf none).1 '2' '0' '2' '0' '0' '1' '0' '1'
      "my" "note.md" "b" (by decide) (by decide) (by decide) (by decide)
  · exact (c8_slug_first_dot_segment idf idf idf none).2 "my" "note.md" "b"
      (by decide) (by decide) (by decide) (by decide)

/-- C5: with no additional parser registered, read_content produces, for
every markdown-extension file, content equal to the front-matter
variables text followed by the markdown-header include directive, the
markdown-converted body and the markdown-footer include directive
(wrapping applied around the converted HTML only); for every other
extension the raw file text is the content, with no split and no
wrapping. -/
theorem c5_content_assembly (fmt fmtRfc md : String → String) (fn text : String)
    (r : ContentRecord) (h : read_content fmt fmtRfc md none fn text = some r) :
    (isMarkdownFile fn = true →
      r.content = (separate_content_and_variables text defaultBoundary).1 ++ mdHeader ++
        md (separate_content_and_variables text defaultBoundary).2 ++ mdFooter) ∧
    (isMarkdownFile fn = false → r.content = text) := by
  unfold read_content at h
  cases hrd : reDateSlug (dateSlugOf fn) with
  | none => rw [hrd] at h; simp at h
  | some ds =>
    obtain ⟨dtok, sl⟩ := ds
    rw [hrd] at h
    simp only [Option.some.injEq] at h
    constructor
    · intro hm
      rw [← h]
      simp [hm]
    · intro hm
      rw [← h]
      simp [hm]

/-- C5 witness: a markdown file with front-matter is assembled as
variables, header directive, converted body, footer directive; an HTML
file's text is taken unchanged. -/
theorem c5_content_assembly_witness :
    (read_content idf idf mdConv none "2020-01-01-a.md" "v \x7b# /variables #\x7d hi" =
      some mdSampleRecord) ∧
    mdSampleRecord.content =
      (separate_content_and_variables "v \x7b# /variables #\x7d hi" defaultBoundary).1 ++
        mdHeader ++ mdConv (separate_content_and_variables
          "v \x7b# /variables #\x7d hi" defaultBoundary).2 ++ mdFooter ∧
    (read_content idf idf mdConv none "2020-01-01-a.html" "<b>raw</b>" =
      some htmlSampleRecord) ∧
    htmlSampleRecord.content = "<b>raw</b>" := by
  refine ⟨by decide, ?_, by decide, ?_⟩
  · exact (c5_content_assembly idf idf mdConv "2020-01-01-a.md"
      "v \x7b# /variables #\x7d hi" mdSampleRecord (by decide)).1 (by decide)
  · exact (c5_content_assembly idf idf mdConv "2020-01-01-a.html" "<b>raw</b>"
      htmlSampleRecord (by decide)).2 (by decide)

/-- C2 counterexample: when the boundary sits at position 0 the splitter
does NOT return the text after the boundary; it returns the whole text,
boundary included, as content. -/
theorem c2_splitter_counterexample :
    separate_content_and_variables (defaultBoundary ++ "body") defaultBoundary =
      ("", defaultBoundary ++ "body") ∧
    separate_content_and_variables (defaultBoundary ++ "body") defaultBoundary ≠
      ("", "body") := by
  constructor
  · decide
  · decide

/-- C2 (amended): the splitter returns the stripped prefix and stripped
suffix when the first occurrence of the boundary is at a position
greater than zero, and returns empty variables with the WHOLE text as
content both when the boundary is absent and when it sits at position 0
(the source tests pos > 0, so a leading boundary is not consumed). -/
theorem c2_splitter_behaviour :
    (∀ body boundary : String,
      separate_content_and_variables (boundary ++ body) boundary =
        ("", boundary ++ body)) ∧
    (∀ v b boundary : String,
      pyFindInt (v ++ boundary ++ b) boundary = (v.toList.length : Int) →
      0 < v.toList.length →
      separate_content_and_variables (v ++ boundary ++ b) boundary =
        (pyStrip v, pyStrip b)) ∧
    (∀ text boundary : String,
      pyFindInt text boundary = -1 →
      separate_content_and_variables text boundary = ("", text)) := by
  refine ⟨?_, ?_, ?_⟩
  · intro body boundary
    have hf : findSub boundary.toList (boundary ++ body).toList = some 0 := by
      rw [toList_append]
      exact findSub_self_append boundary.toList body.toList
    unfold separate_content_and_variables pyFindInt
    rw [hf]
    rfl
  · intro v b boundary hfind hpos
    unfold separate_content_and_variables
    rw [hfind]
    have hgt : ((v.toList.length : Int) > 0) := by exact_mod_cast hpos
    rw [if_pos hgt]
    have htake : ((v ++ boundary ++ b).toList.take (v.toList.length : Int).toNat) = v.toList := by
      rw [Int.toNat_natCast, toList_append, toList_append, List.append_assoc]
      exact List.take_left v.toList _
    have hdrop : ((v ++ boundary ++ b).toList.drop
        ((v.toList.length : Int).toNat + boundary.toList.length)) = b.toList := by
      rw [Int.toNat_natCast, toList_append, toList_append]
      rw [← List.length_append v.toList boundary.toList]
      exact List.drop_left (v.toList ++ boundary.toList) b.toList
    rw [htake, hdrop]
    rfl
  · intro text boundary hfind
    unfold separate_content_and_variables
    rw [hfind]
    rfl

/-- C2 witness: the three spec equations evaluated with the default
boundary: a positive-position boundary splits into stripped variables
and stripped body, and an absent boundary leaves the whole text as
content. -/
theorem c2_splitter_behaviour_witness :
    (pyFindInt ("vars " ++ defaultBoundary ++ " body") defaultBoundary = (5 : Int) ∧
      separate_content_and_variables ("vars " ++ defaultBoundary ++ " body")
        defaultBoundary = ("vars", "body")) ∧
    (pyFindInt "no boundary here" defaultBoundary = -1 ∧
      separate_content_and_variables "no boundary here" defaultBoundary =
        ("", "no boundary here")) := by
  constructor
  · constructor
    · decide
    · have h := c2_splitter_behaviour.2.1 "vars " " body" defaultBoundary (by decide) (by decide)
      rw [h]
      decide
  · exact ⟨by decide, c2_splitter_behaviour.2.2 "no boundary here" defaultBoundary (by decide)⟩

/-- C3: for every input enumeration order and every set of source files,
the list returned by make_pages is sorted by date_ymd in descending
order (Python code-point string comparison, most recent first). -/
theorem c3_make_pages_sorted (fmt fmtRfc md : String → String)
    (ap : Option (String → String → String)) (render : String → PMap → String)
    (layout : Option String) (srcFiles : List (String × String)) (dst : String)
    (params : PMap) (items : List ContentRecord)
    (h : make_pages fmt fmtRfc md ap render layout srcFiles dst params = some items) :
    items.Pairwise (fun a b => pyStrLe b.date_ymd a.date_ymd = true) := by
  unfold make_pages at h
  cases hrec : makePagesLoop fmt fmtRfc md ap render dst params srcFiles with
  | none => rw [hrec] at h; simp at h
  | some r =>
    rw [hrec] at h
    simp only [Option.some.injEq] at h
    subst h
    exact List.sorted_insertionSort dateGe r.2.1

/-- C3 witness: files enumerated in the order 2020-01-01, 2021-06-15,
2019-12-31 come back ordered 2021-06-15, 2020-01-01, 2019-12-31, and
that output is pairwise descending. -/
theorem c3_make_pages_sorted_witness :
    make_pages idf idf idf none trivRender none
        [("2020-01-01-a.html", "x"), ("2021-06-15-b.html", "y"), ("2019-12-31-c.html", "z")]
        "out" [] =
      some [threadItemB, threadItemA,
        ⟨"2019-12-31", "2019-12-31", "2019-12-31", "c", "z", some "out"⟩] ∧
    List.Pairwise (fun a b => pyStrLe b.date_ymd a.date_ymd = true)
      [threadItemB, threadItemA,
        ⟨"2019-12-31", "2019-12-31", "2019-12-31", "c", "z", some "out"⟩] := by
  refine ⟨by decide, ?_⟩
  exact c3_make_pages_sorted idf idf idf none trivRender none
    [("2020-01-01-a.html", "x"), ("2021-06-15-b.html", "y"), ("2019-12-31-c.html", "z")]
    "out" [] _ (by decide)

/-- C4 counterexample: with limit 0 over one post, make_list renders one
item fragment, not min(0, 1) = 0 — the limit check runs only after an
item was appended. -/
theorem c4_list_limit_counterexample :
    (make_list trivRender idf sampleFindId [samplePost "2021-01-01" "a"]
        "dst" "LL" "IL" (some 0) []).map (fun r => r.2.2.length) = .ok 1 ∧
    ¬ (1 = min 0 1) := by
  constructor
  · decide
  · decide

/-- C4 (amended): make_list renders and concatenates exactly
min(L, N) item fragments for every positive limit L, all N with no
limit, and min(1, N) for limit 0 (the bound is checked after the first
item); the fragments are those of the first (most recent) posts. -/
theorem c4_list_limit (render : String → PMap → String) (fs : String → String)
    (findId : String → String → Option String) (posts : List ContentRecord)
    (dst list_layout item_layout : String) (limit : Option Nat) (params : PMap)
    (dstp out : String) (frags : List String)
    (h : make_list render fs findId posts dst list_layout item_layout limit params =
      .ok (dstp, out, frags)) :
    frags.length = listLimitCount limit posts.length ∧
    exceptTraverse (listItemFragment render fs findId item_layout params)
        (posts.take (listLimitCount limit posts.length)) = .ok frags := by
  unfold make_list at h
  cases hl : makeListLoop render fs findId item_layout limit params 0 posts with
  | error e => rw [hl] at h; simp at h
  | ok items =>
    rw [hl] at h
    simp only [Except.ok.injEq, Prod.mk.injEq] at h
    obtain ⟨h1, h2, h3⟩ := h
    subst h3
    have ht := makeListLoop_eq_traverse render fs findId item_layout limit params posts 0
    rw [hl] at ht
    have hcount : listTakeCount limit 0 posts.length = listLimitCount limit posts.length := by
      cases limit <;> simp [listTakeCount, listLimitCount]
    rw [hcount] at ht
    refine ⟨?_, ht.symm⟩
    have hlen := exceptTraverse_ok_length _ _ _ ht.symm
    rw [hlen, List.length_take]
    cases limit with
    | none => simp [listLimitCount]
    | some l =>
      simp only [listLimitCount]
      omega

/-- C4 witness: limit 2 over three posts renders exactly the two
fragments of the two most recent posts. -/
theorem c4_list_limit_witness :
    make_list trivRender idf sampleFindId
        [samplePost "2021-06-15" "b", samplePost "2020-01-01" "a",
         samplePost "2019-12-31" "c"] "dst" "LL" "IL" (some 2) [] =
      .ok ("dst", "LL", ["IL", "IL"]) ∧
    (["IL", "IL"] : List String).length = listLimitCount (some 2) 3 := by
  refine ⟨by decide, ?_⟩
  exact (c4_list_limit trivRender idf sampleFindId
    [samplePost "2021-06-15" "b", samplePost "2020-01-01" "a", samplePost "2019-12-31" "c"]
    "dst" "LL" "IL" (some 2) [] "dst" "LL" ["IL", "IL"] (by decide)).1

/-- C6: for every rendered file whose parsed document has both a title
and a post body element, get_title_and_summary returns the title text
verbatim and, as summary, the whitespace-normalized space-joined first
25 words of the body text. -/
theorem c6_title_and_summary (fs : String → String)
    (findId : String → String → Option String) (path t b : String)
    (ht : findId (fs path) "title" = some t) (hb : findId (fs path) "post" = some b) :
    get_title_and_summary fs findId path =
      .ok (t, String.intercalate " " ((pyWords b).take 25)) := by
  simp only [get_title_and_summary]
  rw [ht, hb]
  rfl

/-- C6 witness: on a thirty-word body with irregular whitespace the
summary is exactly the first 25 words, single-space joined, with
nothing appended, and the title is returned verbatim. -/
theorem c6_title_and_summary_witness :
    get_title_and_summary idf sampleFindId "out/a/index.html" =
      .ok ("My Title",
        "wd01 wd02 wd03 wd04 wd05 wd06 wd07 wd08 wd09 wd10 wd11 wd12 wd13 wd14 wd15 wd16 wd17 wd18 wd19 wd20 wd21 wd22 wd23 wd24 wd25") :=
  (c6_title_and_summary idf sampleFindId "out/a/index.html" "My Title" sampleBody
    rfl rfl).trans (by decide)

/-- C7 counterexample: on a document missing the title element the
failure is the same fixed AttributeError for two different output files
and mentions neither path — the hard failure does not identify the
offending output file. -/
theorem c7_failure_anonymous_counterexample :
    get_title_and_summary idf (fun _ _ => none) "blog/hello/index.html" =
      get_title_and_summary idf (fun _ _ => none) "news/world/index.html" ∧
    pyFindInt attributeErrorMsg "hello" = -1 ∧
    pyFindInt attributeErrorMsg "index.html" = -1 := by
  refine ⟨by decide, by decide, by decide⟩

/-- C7 (amended): when the title element or the post body element is
absent from the parsed document, get_title_and_summary raises the
AttributeError hard failure rather than returning empty text; the
failure does not name the offending output file. -/
theorem c7_missing_elements_fail (fs : String → String)
    (findId : String → String → Option String) (path : String)
    (h : findId (fs path) "title" = none ∨ findId (fs path) "post" = none) :
    get_title_and_summary fs findId path = .error attributeErrorMsg := by
  simp only [get_title_and_summary]
  cases ht : findId (fs path) "title" with
  | none => rfl
  | some t =>
    cases hp : findId (fs path) "post" with
    | none => rfl
    | some b =>
      rcases h with h | h
      · rw [ht] at h
        exact absurd h (by simp)
      · rw [hp] at h
        exact absurd h (by simp)

/-- C7 witness: a document with neither element makes the extraction
fail with the AttributeError. -/
theorem c7_missing_elements_fail_witness :
    get_title_and_summary idf (fun _ _ => none) "out/a/index.html" =
      .error attributeErrorMsg :=
  c7_missing_elements_fail idf (fun _ _ => none) "out/a/index.html" (Or.inl rfl)

/-- C9 counterexample: the params dict inside make_pages is destructively
extended across iterations rather than copied per item: after running
the loop over two files the carried dict has gained the record keys (the
final dict resolves slug while the original did not), so the per-item
extension is not made on a fresh copy of the base mapping. -/
theorem c9_param_mutation_counterexample :
    (makePagesLoop idf idf idf none trivRender "out" [("k0", "v0")]
        [("2020-01-01-a.html", "x"), ("2021-06-15-b.html", "y")]).map
        (fun r => pyGet r.1 "slug") = some (some "b") ∧
    pyGet [("k0", "v0")] "slug" = none := by
  constructor
  · decide
  · decide

/-- C9 (amended): although make_pages extends its params dict in place
across iterations, every record merge writes the same five keys, so the
mapping each render sees resolves every key exactly as the base mapping
extended with that iteration's own record — no key introduced solely by
an earlier item's merge is visible; and in make_list every per-item
mapping is a fresh copy dict(params, **post) of the base params, so each
item fragment depends only on the base mapping and its own post. -/
theorem c9_param_isolation (fmt fmtRfc md : String → String)
    (ap : Option (String → String → String)) (render : String → PMap → String)
    (fs : String → String) (findId : String → String → Option String)
    (il dst : String) (limit : Option Nat) :
    (∀ (srcFiles : List (String × String)) (params pf : PMap)
       (items : List ContentRecord) (writes : List (String × String))
       (seen : List PMap),
      makePagesLoop fmt fmtRfc md ap render dst params srcFiles =
        some (pf, items, writes, seen) →
      ∀ (k : Nat) (hk : k < seen.length) (hk2 : k < items.length) (key : String),
        pyGet (seen.get ⟨k, hk⟩) key =
          pyGet (pyUpdate params (ctxFields (items.get ⟨k, hk2⟩))) key) ∧
    (∀ (params : PMap) (posts : List ContentRecord) (k : Nat),
      makeListLoop render fs findId il limit params k posts =
        exceptTraverse (listItemFragment render fs findId il params)
          (posts.take (listTakeCount limit k posts.length))) :=
  ⟨fun srcFiles params pf items writes seen h =>
      (makePagesLoop_seen fmt fmtRfc md ap render dst srcFiles params pf items writes
        seen h).2,
   fun params posts k => makeListLoop_eq_traverse render fs findId il limit params posts k⟩

/-- C9 witness: in the concrete two-file run the second render's dict
resolves the base key k0 and the slug key exactly as the base mapping
extended with the second record alone, even though the carried dict
physically still holds the first record's entries. -/
theorem c9_param_isolation_witness :
    makePagesLoop idf idf idf none trivRender "out" [("k0", "v0")]
        [("2020-01-01-a.html", "x"), ("2021-06-15-b.html", "y")] =
      some (threadSeenB, [threadItemA, threadItemB], [("out", "x"), ("out", "y")],
        [threadSeenA, threadSeenB]) ∧
    pyGet ([threadSeenA, threadSeenB].get ⟨1, by decide⟩) "k0" =
      pyGet (pyUpdate [("k0", "v0")] (ctxFields ([threadItemA, threadItemB].get ⟨1, by decide⟩)))
        "k0" ∧
    pyGet ([threadSeenA, threadSeenB].get ⟨1, by decide⟩) "slug" =
      pyGet (pyUpdate [("k0", "v0")] (ctxFields ([threadItemA, threadItemB].get ⟨1, by decide⟩)))
        "slug" := by
  refine ⟨rfl, ?_, ?_⟩
  · exact (c9_param_isolation idf idf idf none trivRender idf sampleFindId "IL" "out"
      (some 2)).1 [("2020-01-01-a.html", "x"), ("2021-06-15-b.html", "y")] [("k0", "v0")]
      threadSeenB [threadItemA, threadItemB] [("out", "x"), ("out", "y")]
      [threadSeenA, threadSeenB] rfl 1 (by decide) (by decide) "k0"
  · exact (c9_param_isolation idf idf idf none trivRender idf sampleFindId "IL" "out"
      (some 2)).1 [("2020-01-01-a.html", "x"), ("2021-06-15-b.html", "y")] [("k0", "v0")]
      threadSeenB [threadItemA, threadItemB] [("out", "x"), ("out", "y")]
      [threadSeenA, threadSeenB] rfl 1 (by decide) (by decide) "slug"

end Makesite
